import Mathlib

/-!
# Verification of the FluxCD Kustomize mutating webhook

A shallow embedding of the admission-webhook logic of
`xunholy/fluxcd-kustomize-mutating-webhook` (`main.go`), together with proofs
of the behavioural properties stated in the specification.

The embedding follows the Go source:

* JSON documents are modelled by the inductive type `Json`; a decoded
  `unstructured.Unstructured` object is an association list
  `Jobj = List (String × Json)` (Go's `map[string]interface{}`).
* `nestedMap` models `unstructured.NestedMap` as used at `main.go:230` and
  `main.go:239` (the handler only consults the `found` flag: the lookup
  succeeds exactly when every step of the path is a JSON object).
* `escapeJsonPointer` models the function of the same name
  (`main.go:281-286`): `strings.ReplaceAll(v, "~", "~0")` followed by
  `strings.ReplaceAll(v, "/", "~1")`; since both patterns are single
  characters, `ReplaceAll` is rendered character-wise by `replaceAllC`.
* `handleMutate` models the handler at `main.go:176-270`.  Fallible steps
  (the jsoniter decode of the `AdmissionReview` body, the `json.Unmarshal`
  of the embedded object bytes) are modelled by their results
  (`Except`/`Option`): `Except.error` stands for a body that fails to
  decode, `Option.none` inside a decoded review stands for a `nil`
  `Request` pointer, and `objectRaw = none` stands for object bytes that do
  not unmarshal.  Dereferencing a `nil` `Request` (at `main.go:192`) is a
  Go panic, rendered as the outcome `Outcome.panicked`; chi's
  `middleware.Recoverer` (`main.go:356`) turns it into an HTTP 500.
* `readConfigMap`, `startupConfig`, `handleReady` model the configuration
  load (`main.go:149-174`, `main.go:322-330`) and the readiness probe
  (`main.go:293-300`).
* `applyPatch` models RFC 6902 `add` application for object containers
  (the patch engine lives in the Kubernetes API server, outside this
  repository); it is used to state idempotence and parent-path properties.
-/

/-- A JSON value (null / bool / number / string / array / object).  Numbers
are modelled by `Int`; no numeric value is ever produced or inspected by the
webhook logic, so the representation of numbers is irrelevant here. -/
inductive Json where
  | null : Json
  | bool (b : Bool) : Json
  | num (n : Int) : Json
  | str (s : String) : Json
  | arr (elems : List Json) : Json
  | obj (members : List (String × Json)) : Json

/-- A decoded `unstructured.Unstructured` object: Go's
`map[string]interface{}`, i.e. the members of a top-level JSON object
(`json.Unmarshal` into `Unstructured` only succeeds on a JSON object). -/
abbrev Jobj := List (String × Json)

/-- Member lookup in a JSON object (Go map indexing `m[field]`). -/
def getMember (o : Jobj) (k : String) : Option Json :=
  (o.find? (fun p => p.1 = k)).map (fun p => p.2)

/-- Setting a member of a JSON object: replace the member in place when the
key is present, append it otherwise (the observable behaviour of a Go map
store, and of RFC 6902 `add` on an object member). -/
def setMember (o : Jobj) (k : String) (v : Json) : Jobj :=
  if o.any (fun p => p.1 = k) then
    o.map (fun p => if p.1 = k then (k, v) else p)
  else
    o ++ [(k, v)]

/-- `unstructured.NestedMap(obj, fields...)`, restricted to the `found`
flag and the resulting map, as consumed at `main.go:230` and `main.go:239`:
walk the fields, requiring a JSON object at every step; `none` when a field
is absent or a step is not an object (the handler ignores the error value
and treats both as "not found"). -/
def nestedMap (o : Jobj) : List String → Option Jobj
  | [] => some o
  | field :: rest =>
    match getMember o field with
    | some (Json.obj m) => nestedMap m rest
    | _ => none

/-- Character-wise rendering of Go's `strings.ReplaceAll(s, string(c), r)`
for a single-character pattern `c`: every occurrence of `c` is replaced by
`r`, all other characters are kept. -/
def replaceAllC (c : Char) (r : List Char) : List Char → List Char
  | [] => []
  | a :: rest => (if a = c then r else [a]) ++ replaceAllC c r rest

/-- `escapeJsonPointer` (`main.go:281-286`): replace every `~` with `~0`,
then every `/` with `~1`, in that order. -/
def escapeJsonPointer (value : String) : String :=
  String.mk (replaceAllC '/' ['~', '1'] (replaceAllC '~' ['~', '0'] value.data))

/-- The combined effect of the two replacement passes on one character. -/
def escC (c : Char) : List Char :=
  if c = '~' then ['~', '0'] else if c = '/' then ['~', '1'] else [c]

/-- The combined effect of the two replacement passes on a string. -/
def escL : List Char → List Char
  | [] => []
  | c :: rest => escC c ++ escL rest

/-- One JSON-Patch operation, as built at `main.go:231`, `main.go:240` and
`main.go:250`: a map with the keys `op`, `path`, `value`. -/
structure PatchOp where
  op : String
  path : String
  value : Json

/-- The `add` of an empty object at `/spec/postBuild` (`main.go:231-235`). -/
def pbAddOp : PatchOp := ⟨"add", "/spec/postBuild", Json.obj []⟩

/-- The `add` of an empty object at `/spec/postBuild/substitute`
(`main.go:240-244`). -/
def subAddOp : PatchOp := ⟨"add", "/spec/postBuild/substitute", Json.obj []⟩

/-- The patch path of a substitution key (`main.go:252`). -/
def subPath (key : String) : String :=
  "/spec/postBuild/substitute/" ++ escapeJsonPointer key

/-- The two conditional container operations (`main.go:229-245`): an `add`
of `{}` at `/spec/postBuild` when the original document has no nested map
there, then an `add` of `{}` at `/spec/postBuild/substitute` when the
original document has no nested map there; both checks read the original
document. -/
def containerOps (doc : Jobj) : List PatchOp :=
  (match nestedMap doc ["spec", "postBuild"] with
   | none => [pbAddOp]
   | some _ => []) ++
  (match nestedMap doc ["spec", "postBuild", "substitute"] with
   | none => [subAddOp]
   | some _ => [])

/-- The per-key substitution operations (`main.go:248-255`): one `add` per
entry of the substitution map, at the escaped key path, with the literal
string value.  Go iterates the map in unspecified order; the embedding
fixes the order of the given association list (claims below never depend
on the order among distinct keys). -/
def substOps (cfg : List (String × String)) : List PatchOp :=
  cfg.map (fun kv => ⟨"add", subPath kv.1, Json.str kv.2⟩)

/-- The full patch list built by the handler for a target-kind, non-delete
request (`main.go:227-255`): the conditional container `add`s, in order,
followed by the per-key `add`s. -/
def mkPatch (doc : Jobj) (cfg : List (String × String)) : List PatchOp :=
  containerOps doc ++ substOps cfg

/-- Whether an operation is one of the two conditional container `add`s
(recognised by its path). -/
def isContainerOp (o : PatchOp) : Bool :=
  o.path == "/spec/postBuild" || o.path == "/spec/postBuild/substitute"

/-- `obj.GetDeletionTimestamp().IsZero()` (`main.go:213`): the apimachinery
accessor reads `metadata.deletionTimestamp` as a string and treats an
absent field, a non-string value, an empty string and the zero time as
zero.  Full RFC 3339 parsing lives in apimachinery, outside this
repository; the zero time is modelled by its canonical rendering
`0001-01-01T00:00:00Z`, and any other non-empty string counts as a
non-zero timestamp. -/
def deletionTimestampIsZero (doc : Jobj) : Bool :=
  match getMember doc "metadata" with
  | some (Json.obj m) =>
    match getMember m "deletionTimestamp" with
    | some (Json.str s) => s = "" || s = "0001-01-01T00:00:00Z"
    | _ => true
  | _ => true

/-- The decoded `AdmissionRequest` (`admissionReviewReq.Request`): UID,
requested kind (`Request.Kind.Kind`), operation, and the result of
`json.Unmarshal` on `Request.Object.Raw` (`none` when the embedded bytes
are not a valid JSON object). -/
structure AdmissionRequest where
  uid : String
  kind : String
  operation : String
  objectRaw : Option Jobj

/-- The fields of the `AdmissionResponse` the handler populates
(`main.go:186-195`, `main.go:257-267`): echoed UID, `allowed`, and the
optional patch with its optional patch type (Go encodes the patch list to
bytes; the embedding keeps the list). -/
structure AdmissionResponse where
  uid : String
  allowed : Bool
  patch : Option (List PatchOp)
  patchType : Option String

/-- The observable outcome of one call to the `/mutate` handler:
`badRequest` for `http.Error(..., 400)`, `panicked` for a Go panic
(recovered to HTTP 500 by `middleware.Recoverer`, `main.go:356`), `ok` for
a written `AdmissionReview` response (HTTP 200). -/
inductive Outcome where
  | badRequest (msg : String) : Outcome
  | panicked : Outcome
  | ok (resp : AdmissionResponse) : Outcome

/-- The HTTP status of an outcome. -/
def statusOf : Outcome → Nat
  | Outcome.badRequest _ => 400
  | Outcome.panicked => 500
  | Outcome.ok _ => 200

/-- `handleMutate` (`main.go:176-270`).  The body argument is the result of
the jsoniter decode of the request body: `Except.error` when the body does
not decode (`main.go:179-183`), otherwise the optional `Request` object
(`none` models a decoded review whose `request` field is absent, leaving
the `Request` pointer `nil`; the handler then dereferences it at
`main.go:192` and panics). -/
def handleMutate (body : Except Unit (Option AdmissionRequest))
    (appConfig : List (String × String)) : Outcome :=
  match body with
  | Except.error _ => Outcome.badRequest "Could not decode request"
  | Except.ok none => Outcome.panicked
  | Except.ok (some req) =>
    let base : AdmissionResponse :=
      { uid := req.uid, allowed := true, patch := none, patchType := none }
    if req.kind ≠ "Kustomization" then
      Outcome.ok base
    else
      match req.objectRaw with
      | none => Outcome.badRequest "Failed to unmarshal Object"
      | some doc =>
        if req.operation = "DELETE" || !deletionTimestampIsZero doc then
          Outcome.ok base
        else
          let patch := mkPatch doc appConfig
          if patch.isEmpty then
            Outcome.ok base
          else
            Outcome.ok { base with
              patch := some patch, patchType := some "JSONPatch" }

/-- The patch list carried by an outcome (empty when the patch field is
omitted or the outcome is not a written response). -/
def responsePatch : Outcome → List PatchOp
  | Outcome.ok resp => resp.patch.getD []
  | _ => []

section ConfigLoad

/-- Decidable equality for `Except` results, used to evaluate concrete
configuration loads. -/
instance {e a : Type} [DecidableEq e] [DecidableEq a] : DecidableEq (Except e a) :=
  fun x y =>
    match x, y with
    | Except.error x1, Except.error y1 =>
      if h : x1 = y1 then isTrue (by rw [h])
      else isFalse (by intro hh; cases hh; exact h rfl)
    | Except.ok x1, Except.ok y1 =>
      if h : x1 = y1 then isTrue (by rw [h])
      else isFalse (by intro hh; cases hh; exact h rfl)
    | Except.error _, Except.ok _ => isFalse (fun hh => Except.noConfusion hh)
    | Except.ok _, Except.error _ => isFalse (fun hh => Except.noConfusion hh)

/-- One entry of the configuration directory as seen by `readConfigMap`
(`main.go:149-174`): its name, whether it is a directory, and the result
of `os.ReadFile` on it (`Except.error` for a read failure). -/
structure DirEntry where
  name : String
  isDir : Bool
  content : Except Unit String
  deriving DecidableEq

/-- The two error classes of the configuration load: `notFound` is
`errConfigNotFound` (`main.go:42`, returned when no entries were
collected), `ioError` covers `os.ReadDir` / `os.ReadFile` failures. -/
inductive ReadErr where
  | notFound : ReadErr
  | ioError : ReadErr
  deriving DecidableEq

/-- `strings.HasPrefix(name, ".")` (`main.go:157`): the name begins with a
dot (character-level rendering of the single-character prefix test). -/
def startsWithDot (s : String) : Bool :=
  match s.data with
  | '.' :: _ => true
  | _ => false

/-- The collection loop of `readConfigMap` (`main.go:156-167`): skip
directories and dot-prefixed names, fail on the first file read error,
otherwise record `name ↦ content`. -/
def collectFiles : List DirEntry → Except Unit (List (String × String))
  | [] => Except.ok []
  | f :: rest =>
    if f.isDir || startsWithDot f.name then collectFiles rest
    else
      match f.content with
      | Except.error _ => Except.error ()
      | Except.ok v => (collectFiles rest).map (fun c => (f.name, v) :: c)

/-- `readConfigMap` (`main.go:149-174`): the directory listing itself may
fail (`os.ReadDir`), a file read may fail, and an empty collection is the
dedicated error `errConfigNotFound`. -/
def readConfigMap (dir : Except Unit (List DirEntry)) :
    Except ReadErr (List (String × String)) :=
  match dir with
  | Except.error _ => Except.error ReadErr.ioError
  | Except.ok files =>
    match collectFiles files with
    | Except.error _ => Except.error ReadErr.ioError
    | Except.ok config =>
      if config.isEmpty then Except.error ReadErr.notFound
      else Except.ok config

/-- The process state after the startup configuration load. -/
inductive Startup where
  | fatal : Startup
  | running (appConfig : List (String × String)) : Startup
  deriving DecidableEq

/-- The startup policy (`main.go:322-330`): `errConfigNotFound` is a
warning and the process continues with an empty map; any other load error
is fatal; on success the loaded map is installed. -/
def startupConfig (r : Except ReadErr (List (String × String))) : Startup :=
  match r with
  | Except.ok cfg => Startup.running cfg
  | Except.error ReadErr.notFound => Startup.running []
  | Except.error ReadErr.ioError => Startup.fatal

/-- `handleHealth` (`main.go:288-291`): always 200. -/
def handleHealth : Nat := 200

/-- `handleReady` (`main.go:293-300`): 503 while the substitution map is
empty, 200 otherwise. -/
def handleReady (appConfig : List (String × String)) : Nat :=
  if appConfig.length = 0 then 503 else 200

end ConfigLoad

section PatchEngine

/-- Split a pointer body at `/` (RFC 6901 reference-token decomposition). -/
def splitSegs : List Char → List (List Char)
  | [] => [[]]
  | c :: rest =>
    if c = '/' then [] :: splitSegs rest
    else
      match splitSegs rest with
      | s :: ss => (c :: s) :: ss
      | [] => [[c]]

/-- Undo the `~1` escape (RFC 6901: applied before the `~0` pass). -/
def unescTilde1 : List Char → List Char
  | '~' :: '1' :: rest => '/' :: unescTilde1 rest
  | c :: rest => c :: unescTilde1 rest
  | [] => []

/-- Undo the `~0` escape. -/
def unescTilde0 : List Char → List Char
  | '~' :: '0' :: rest => '~' :: unescTilde0 rest
  | c :: rest => c :: unescTilde0 rest
  | [] => []

/-- Unescape one reference token: `~1 → /`, then `~0 → ~`. -/
def unescapeSeg (l : List Char) : List Char := unescTilde0 (unescTilde1 l)

/-- Parse a JSON Pointer (RFC 6901): the empty pointer denotes the whole
document; otherwise the pointer must start with `/` and its reference
tokens are unescaped after splitting. -/
def parsePointer (p : String) : Option (List String) :=
  match p.data with
  | [] => some []
  | '/' :: rest => some ((splitSegs rest).map (fun s => String.mk (unescapeSeg s)))
  | _ => none

/-- RFC 6902 `add` into object containers, modelling the patch engine of
the Kubernetes API server (outside this repository): walk the parent path
through existing object members, then set the final member (insert or
replace).  `none` when a parent is absent or not an object.  Array-index
`add`s never arise for the paths this webhook emits (every successfully
traversed parent is an object), so a non-object container fails. -/
def addAt (o : Jobj) : List String → Json → Option Jobj
  | [k], v => some (setMember o k v)
  | k :: rest, v =>
    match getMember o k with
    | some (Json.obj m) => (addAt m rest v).map (fun m2 => setMember o k (Json.obj m2))
    | _ => none
  | [], _ => none

/-- Apply one patch operation: only `add` is ever emitted. -/
def applyOp (o : Jobj) (op : PatchOp) : Option Jobj :=
  if op.op = "add" then
    match parsePointer op.path with
    | some segs => addAt o segs op.value
    | none => none
  else none

/-- Apply a patch operation list left to right. -/
def applyPatch (o : Jobj) (ops : List PatchOp) : Option Jobj :=
  ops.foldlM applyOp o

/-- The document carries objects along `spec.postBuild.substitute`: the
state in which neither container `add` fires and every per-key `add`
applies. -/
def SubReady (o : Jobj) : Prop :=
  ∃ A B S, getMember o "spec" = some (Json.obj A) ∧
    getMember A "postBuild" = some (Json.obj B) ∧
    getMember B "substitute" = some (Json.obj S)

end PatchEngine

/-! ## Basic lemmas about object members -/

theorem getMember_setMember_same (o : Jobj) (k : String) (v : Json) :
    getMember (setMember o k v) k = some v := by
  induction o with
  | nil => simp [setMember, getMember]
  | cons p t ih =>
    by_cases hp : p.1 = k
    · simp [setMember, getMember, List.any_cons, hp]
    · have hmap : setMember (p :: t) k v = p :: setMember t k v := by
        by_cases ht : t.any (fun q => q.1 = k) <;>
          simp [setMember, List.any_cons, hp, ht]
      rw [hmap]
      simpa [getMember, List.find?_cons, hp] using ih

theorem getMember_map_fix (t : Jobj) (k k2 : String) (v : Json) (hne : k2 ≠ k) :
    getMember (t.map (fun q => if q.1 = k then (k, v) else q)) k2 = getMember t k2 := by
  induction t with
  | nil => rfl
  | cons q t ih =>
    by_cases hq : q.1 = k
    · have h1 : ¬ (k = k2) := fun h => hne h.symm
      have h2 : ¬ (q.1 = k2) := by rw [hq]; exact h1
      simp only [List.map_cons, hq, if_true, getMember, List.find?_cons] at ih ⊢
      simp [h1, h2] at ih ⊢
      exact ih
    · simp only [List.map_cons, hq, if_false, getMember, List.find?_cons] at ih ⊢
      by_cases h2 : q.1 = k2
      · simp [h2]
      · simp [h2] at ih ⊢
        exact ih

theorem getMember_append_none (o : Jobj) (k k2 : String) (v : Json) (hne : k2 ≠ k) :
    getMember (o ++ [(k, v)]) k2 = getMember o k2 := by
  induction o with
  | nil =>
    have h1 : ¬ (k = k2) := fun h => hne h.symm
    simp [getMember, List.find?_cons, h1]
  | cons p t ih =>
    by_cases hp : p.1 = k2
    · simp [getMember, List.find?_cons, hp]
    · simp only [List.cons_append, getMember, List.find?_cons] at ih ⊢
      simp [hp] at ih ⊢
      exact ih

theorem getMember_setMember_other (o : Jobj) (k k2 : String) (v : Json)
    (hne : k2 ≠ k) : getMember (setMember o k v) k2 = getMember o k2 := by
  unfold setMember
  by_cases h : o.any (fun p => p.1 = k)
  · simp only [h, if_true]
    exact getMember_map_fix o k k2 v hne
  · simp only [h, if_false]
    exact getMember_append_none o k k2 v hne

/-! ## Lemmas about JSON-Pointer escaping -/

theorem replaceAllC_append (c : Char) (r l1 l2 : List Char) :
    replaceAllC c r (l1 ++ l2) = replaceAllC c r l1 ++ replaceAllC c r l2 := by
  induction l1 with
  | nil => rfl
  | cons a t ih => simp [replaceAllC, ih, List.append_assoc]

theorem escape_eq_escL (l : List Char) :
    replaceAllC '/' ['~', '1'] (replaceAllC '~' ['~', '0'] l) = escL l := by
  induction l with
  | nil => rfl
  | cons c t ih =>
    show replaceAllC '/' ['~', '1']
        ((if c = '~' then ['~', '0'] else [c]) ++ replaceAllC '~' ['~', '0'] t) =
      escC c ++ escL t
    rw [replaceAllC_append, ih]
    congr 1
    by_cases h0 : c = '~'
    · subst h0; rfl
    · by_cases h1 : c = '/'
      · subst h1; simp [replaceAllC, escC, h0]
      · simp [replaceAllC, escC, h0, h1]

theorem escapeJsonPointer_data (k : String) :
    (escapeJsonPointer k).data = escL k.data := by
  simp [escapeJsonPointer, escape_eq_escL]

theorem escC_ne_nil (c : Char) : escC c ≠ [] := by
  unfold escC
  by_cases h0 : c = '~' <;> by_cases h1 : c = '/' <;> simp [h0, h1]

theorem escC_prefix_code (a b : Char) (t1 t2 : List Char)
    (h : escC a ++ t1 = escC b ++ t2) : a = b ∧ t1 = t2 := by
  by_cases ha0 : a = '~'
  · subst ha0
    rw [show escC '~' = ['~', '0'] from rfl] at h
    by_cases hb0 : b = '~'
    · subst hb0
      rw [show escC '~' = ['~', '0'] from rfl] at h
      simp only [List.cons_append, List.nil_append, List.cons.injEq] at h
      exact ⟨rfl, h.2.2⟩
    · by_cases hb1 : b = '/'
      · subst hb1
        rw [show escC '/' = ['~', '1'] from rfl] at h
        simp only [List.cons_append, List.nil_append, List.cons.injEq] at h
        exact absurd h.2.1 (by decide)
      · rw [show escC b = [b] from by simp [escC, hb0, hb1]] at h
        simp only [List.cons_append, List.nil_append, List.cons.injEq] at h
        exact absurd h.1.symm hb0
  · by_cases ha1 : a = '/'
    · subst ha1
      rw [show escC '/' = ['~', '1'] from rfl] at h
      by_cases hb0 : b = '~'
      · subst hb0
        rw [show escC '~' = ['~', '0'] from rfl] at h
        simp only [List.cons_append, List.nil_append, List.cons.injEq] at h
        exact absurd h.2.1 (by decide)
      · by_cases hb1 : b = '/'
        · subst hb1
          rw [show escC '/' = ['~', '1'] from rfl] at h
          simp only [List.cons_append, List.nil_append, List.cons.injEq] at h
          exact ⟨rfl, h.2.2⟩
        · rw [show escC b = [b] from by simp [escC, hb0, hb1]] at h
          simp only [List.cons_append, List.nil_append, List.cons.injEq] at h
          exact absurd h.1.symm hb0
    · rw [show escC a = [a] from by simp [escC, ha0, ha1]] at h
      by_cases hb0 : b = '~'
      · subst hb0
        rw [show escC '~' = ['~', '0'] from rfl] at h
        simp only [List.cons_append, List.nil_append, List.cons.injEq] at h
        exact absurd h.1 ha0
      · by_cases hb1 : b = '/'
        · subst hb1
          rw [show escC '/' = ['~', '1'] from rfl] at h
          simp only [List.cons_append, List.nil_append, List.cons.injEq] at h
          exact absurd h.1 ha0
        · rw [show escC b = [b] from by simp [escC, hb0, hb1]] at h
          simp only [List.cons_append, List.nil_append, List.cons.injEq] at h
          exact h

theorem escL_inj : ∀ l1 l2 : List Char, escL l1 = escL l2 → l1 = l2 := by
  intro l1
  induction l1 with
  | nil =>
    intro l2 h
    cases l2 with
    | nil => rfl
    | cons b t2 =>
      exfalso
      rw [escL, escL] at h
      rcases List.append_eq_nil.mp h.symm with ⟨h1, _⟩
      exact escC_ne_nil b h1
  | cons a t1 ih =>
    intro l2 h
    cases l2 with
    | nil =>
      exfalso
      rw [escL, escL] at h
      rcases List.append_eq_nil.mp h with ⟨h1, _⟩
      exact escC_ne_nil a h1
    | cons b t2 =>
      rw [escL, escL] at h
      rcases escC_prefix_code a b (escL t1) (escL t2) h with ⟨hab, ht⟩
      rw [hab, ih t2 ht]

theorem escapeJsonPointer_inj {k1 k2 : String}
    (h : escapeJsonPointer k1 = escapeJsonPointer k2) : k1 = k2 := by
  have hd : (escapeJsonPointer k1).data = (escapeJsonPointer k2).data := by rw [h]
  rw [escapeJsonPointer_data, escapeJsonPointer_data] at hd
  cases k1 with
  | mk d1 =>
    cases k2 with
    | mk d2 => exact congrArg String.mk (escL_inj d1 d2 hd)

theorem escape_no_slash (k : String) : '/' ∉ (escapeJsonPointer k).data := by
  have hgen : ∀ l : List Char, '/' ∉ replaceAllC '/' ['~', '1'] l := by
    intro l
    induction l with
    | nil => simp [replaceAllC]
    | cons a t ih =>
      by_cases ha : a = '/'
      · simp only [replaceAllC, ha, if_pos rfl]
        intro hmem
        rcases List.mem_append.mp hmem with hm | hm
        · simp at hm
        · exact ih hm
      · simp only [replaceAllC, if_neg ha]
        intro hmem
        rcases List.mem_append.mp hmem with hm | hm
        · simp at hm
          exact absurd hm.symm ha
        · exact ih hm
  exact hgen _

/-! ## Path disequalities and injectivity -/

theorem subPath_data (k : String) :
    (subPath k).data = "/spec/postBuild/substitute/".data ++ (escapeJsonPointer k).data := by
  simp [subPath, String.data_append]

theorem subPath_ne_pb (k : String) : subPath k ≠ "/spec/postBuild" := by
  intro h
  have hd := congrArg String.data h
  rw [subPath_data] at hd
  have hl := congrArg List.length hd
  rw [List.length_append] at hl
  have h27 : "/spec/postBuild/substitute/".data.length = 27 := by decide
  have h15 : "/spec/postBuild".data.length = 15 := by decide
  omega

theorem subPath_ne_sub (k : String) : subPath k ≠ "/spec/postBuild/substitute" := by
  intro h
  have hd := congrArg String.data h
  rw [subPath_data] at hd
  have hl := congrArg List.length hd
  rw [List.length_append] at hl
  have h27 : "/spec/postBuild/substitute/".data.length = 27 := by decide
  have h26 : "/spec/postBuild/substitute".data.length = 26 := by decide
  omega

theorem subPath_inj {k1 k2 : String} (h : subPath k1 = subPath k2) : k1 = k2 := by
  have hd := congrArg String.data h
  rw [subPath_data, subPath_data] at hd
  have he := List.append_cancel_left hd
  apply escapeJsonPointer_inj
  cases hesc : escapeJsonPointer k1 with
  | mk d1 =>
    cases hesc2 : escapeJsonPointer k2 with
    | mk d2 =>
      rw [hesc, hesc2] at he
      exact congrArg String.mk he

/-! ## Running the handler on a target-kind, non-delete request -/

theorem handleMutate_run (uid op : String) (doc : Jobj)
    (cfg : List (String × String))
    (hop : op ≠ "DELETE") (hdt : deletionTimestampIsZero doc = true) :
    handleMutate (Except.ok (some ⟨uid, "Kustomization", op, some doc⟩)) cfg =
      Outcome.ok
        { uid := uid, allowed := true,
          patch := if (mkPatch doc cfg).isEmpty then none
                   else some (mkPatch doc cfg),
          patchType := if (mkPatch doc cfg).isEmpty then none
                       else some "JSONPatch" } := by
  by_cases hemp : (mkPatch doc cfg).isEmpty <;>
    simp [handleMutate, hop, hdt, hemp]

theorem responsePatch_run (uid op : String) (doc : Jobj)
    (cfg : List (String × String))
    (hop : op ≠ "DELETE") (hdt : deletionTimestampIsZero doc = true) :
    responsePatch
      (handleMutate (Except.ok (some ⟨uid, "Kustomization", op, some doc⟩)) cfg) =
      mkPatch doc cfg := by
  rw [handleMutate_run uid op doc cfg hop hdt]
  by_cases hemp : (mkPatch doc cfg).isEmpty
  · have : mkPatch doc cfg = [] := by
      cases hp : mkPatch doc cfg with
      | nil => rfl
      | cons a t => rw [hp] at hemp; simp [List.isEmpty] at hemp
    simp [responsePatch, hemp, this]
  · simp [responsePatch, hemp]

/-! ## Claims C4 - C9 -/

/-- C4 (amended): a request body that fails to decode is rejected with
HTTP 400 and no admission response; a body that decodes but lacks the
request object makes the handler dereference a nil pointer, which the
recovery middleware reports as HTTP 500 (not 400 as the claim states) —
in neither case is the mutation logic reached or a response synthesized. -/
theorem C4_boundary_errors (cfg : List (String × String)) :
    handleMutate (Except.error ()) cfg =
      Outcome.badRequest "Could not decode request" ∧
    statusOf (handleMutate (Except.error ()) cfg) = 400 ∧
    handleMutate (Except.ok none) cfg = Outcome.panicked ∧
    statusOf (handleMutate (Except.ok none) cfg) = 500 :=
  ⟨rfl, rfl, rfl, rfl⟩

/-- C4 counterexample: a well-formed JSON body without a request object is
answered with HTTP 500 (recovered panic), not with HTTP 400. -/
theorem C4_counterexample :
    statusOf (handleMutate (Except.ok none) [("K", "V")]) ≠ 400 ∧
    statusOf (handleMutate (Except.ok none) [("K", "V")]) = 500 :=
  ⟨by decide, rfl⟩

/-- C5 (amended): a target-kind (`Kustomization`) request whose embedded
object bytes do not unmarshal is rejected with HTTP 400; the kind filter
runs first, so a non-target-kind request is never unmarshalled. -/
theorem C5_object_unmarshal_400 (uid op : String)
    (cfg : List (String × String)) :
    handleMutate (Except.ok (some ⟨uid, "Kustomization", op, none⟩)) cfg =
      Outcome.badRequest "Failed to unmarshal Object" ∧
    statusOf
      (handleMutate (Except.ok (some ⟨uid, "Kustomization", op, none⟩)) cfg) =
      400 := by
  refine ⟨?_, ?_⟩ <;> simp [handleMutate, statusOf]

/-- C5 counterexample: a non-target-kind request with invalid object bytes
is answered HTTP 200 with an empty-patch allow response — the kind filter
runs before the object unmarshal, so no 400 is produced. -/
theorem C5_counterexample :
    handleMutate (Except.ok (some ⟨"u4", "ConfigMap", "CREATE", none⟩))
        [("K", "V")] =
      Outcome.ok
        { uid := "u4", allowed := true, patch := none, patchType := none } ∧
    statusOf (handleMutate (Except.ok (some ⟨"u4", "ConfigMap", "CREATE", none⟩))
        [("K", "V")]) = 200 :=
  ⟨rfl, rfl⟩

/-- C6 (amended): a target-kind request whose object bytes unmarshal and
whose operation is Delete, or whose object carries a non-zero deletion
timestamp, gets an empty-patch `allowed = true` response. -/
theorem C6_delete_short_circuit (uid op : String) (doc : Jobj)
    (cfg : List (String × String))
    (h : op = "DELETE" ∨ deletionTimestampIsZero doc = false) :
    handleMutate (Except.ok (some ⟨uid, "Kustomization", op, some doc⟩)) cfg =
      Outcome.ok
        { uid := uid, allowed := true, patch := none, patchType := none } := by
  rcases h with h | h <;> simp [handleMutate, h]

/-- C6 witness: a Delete of a Kustomization with unmarshalable object bytes
passes through unpatched even with a non-empty substitution map. -/
theorem C6_witness :
    (("DELETE" : String) = "DELETE" ∨ deletionTimestampIsZero [] = false) ∧
    handleMutate (Except.ok (some ⟨"u3", "Kustomization", "DELETE", some []⟩))
        [("K", "V")] =
      Outcome.ok
        { uid := "u3", allowed := true, patch := none, patchType := none } :=
  ⟨Or.inl rfl,
    C6_delete_short_circuit "u3" "DELETE" [] [("K", "V")] (Or.inl rfl)⟩

/-- C6 counterexample: a target-kind Delete request whose object bytes do
not unmarshal (the usual shape of a Delete admission request, which carries
a null object) is rejected with HTTP 400 — the unmarshal precedes the
deletion short-circuit — instead of the claimed empty-patch allow. -/
theorem C6_counterexample :
    handleMutate (Except.ok (some ⟨"u2", "Kustomization", "DELETE", none⟩)) [] =
      Outcome.badRequest "Failed to unmarshal Object" ∧
    statusOf
      (handleMutate (Except.ok (some ⟨"u2", "Kustomization", "DELETE", none⟩))
        []) = 400 :=
  ⟨rfl, rfl⟩

/-- C7: a request for any kind other than `Kustomization` gets an
empty-patch `allowed = true` response, whatever the substitution map and
whatever the object bytes hold. -/
theorem C7_kind_filter (uid kind op : String) (objectRaw : Option Jobj)
    (cfg : List (String × String)) (hk : kind ≠ "Kustomization") :
    handleMutate (Except.ok (some ⟨uid, kind, op, objectRaw⟩)) cfg =
      Outcome.ok
        { uid := uid, allowed := true, patch := none, patchType := none } := by
  simp [handleMutate, hk]

/-- C7 witness: a ConfigMap request passes through with a non-empty
substitution map. -/
theorem C7_witness :
    ("ConfigMap" : String) ≠ "Kustomization" ∧
    handleMutate (Except.ok (some ⟨"u1", "ConfigMap", "CREATE", some []⟩))
        [("K", "V")] =
      Outcome.ok
        { uid := "u1", allowed := true, patch := none, patchType := none } :=
  ⟨by decide,
    C7_kind_filter "u1" "ConfigMap" "CREATE" (some []) [("K", "V")] (by decide)⟩

/-- C8: every written admission response either omits both the patch and
the patch type, or carries a non-empty patch list together with the
`JSONPatch` patch type. -/
theorem C8_patch_patchType_invariant (body : Except Unit (Option AdmissionRequest))
    (cfg : List (String × String)) (resp : AdmissionResponse)
    (h : handleMutate body cfg = Outcome.ok resp) :
    (resp.patch = none ∧ resp.patchType = none) ∨
    (∃ p, p ≠ [] ∧ resp.patch = some p ∧ resp.patchType = some "JSONPatch") := by
  cases body with
  | error e => exact absurd h (by simp [handleMutate])
  | ok req? =>
    cases req? with
    | none => exact absurd h (by simp [handleMutate])
    | some req =>
      simp only [handleMutate] at h
      split at h
      · cases h
        left
        exact ⟨rfl, rfl⟩
      · split at h
        · exact absurd h (by simp)
        · split at h
          · cases h
            left
            exact ⟨rfl, rfl⟩
          · split at h
            · cases h
              left
              exact ⟨rfl, rfl⟩
            · rename_i hemp
              cases h
              right
              refine ⟨_, ?_, rfl, rfl⟩
              intro hnil
              rw [hnil] at hemp
              simp at hemp

/-- C8 witness: a mutating request yields a response with a non-empty
patch and the `JSONPatch` type attached, as classified by the invariant. -/
theorem C8_witness :
    handleMutate (Except.ok (some ⟨"u5", "Kustomization", "CREATE", some []⟩))
        [("K", "V")] =
      Outcome.ok
        { uid := "u5", allowed := true,
          patch := some (mkPatch [] [("K", "V")]),
          patchType := some "JSONPatch" } ∧
    ((({ uid := "u5", allowed := true,
         patch := some (mkPatch [] [("K", "V")]),
         patchType := some "JSONPatch" } : AdmissionResponse).patch = none ∧
      ({ uid := "u5", allowed := true,
         patch := some (mkPatch [] [("K", "V")]),
         patchType := some "JSONPatch" } : AdmissionResponse).patchType = none) ∨
     (∃ p, p ≠ [] ∧
       ({ uid := "u5", allowed := true,
          patch := some (mkPatch [] [("K", "V")]),
          patchType := some "JSONPatch" } : AdmissionResponse).patch = some p ∧
       ({ uid := "u5", allowed := true,
          patch := some (mkPatch [] [("K", "V")]),
          patchType := some "JSONPatch" } : AdmissionResponse).patchType =
         some "JSONPatch")) :=
  ⟨rfl,
    C8_patch_patchType_invariant
      (Except.ok (some ⟨"u5", "Kustomization", "CREATE", some []⟩))
      [("K", "V")] _ rfl⟩

/-- C9: the readiness probe answers 200 exactly when the startup load
succeeded (which forces a non-empty map); an empty-but-readable source is
the dedicated `notFound` error, on which the process keeps running with an
empty map (degraded mode) and the probe answers 503; a directory or file
read failure is fatal. -/
theorem C9_readiness (dir : Except Unit (List DirEntry)) :
    (∀ cfg, readConfigMap dir = Except.ok cfg →
      startupConfig (readConfigMap dir) = Startup.running cfg ∧
      handleReady cfg = 200) ∧
    (readConfigMap dir = Except.error ReadErr.notFound →
      startupConfig (readConfigMap dir) = Startup.running [] ∧
      handleReady [] = 503) ∧
    (readConfigMap dir = Except.error ReadErr.ioError →
      startupConfig (readConfigMap dir) = Startup.fatal) := by
  refine ⟨?_, ?_, ?_⟩
  · intro cfg h
    refine ⟨by rw [h]; rfl, ?_⟩
    have hne : cfg ≠ [] := by
      unfold readConfigMap at h
      split at h
      · exact absurd h (by simp)
      · split at h
        · exact absurd h (by simp)
        · split at h
          · exact absurd h (by simp)
          · rename_i hemp
            injection h with h2
            subst h2
            intro hnil
            rw [hnil] at hemp
            simp at hemp
    have hlen : cfg.length ≠ 0 := by
      intro h0
      exact hne (List.length_eq_zero.mp h0)
    simp [handleReady, hlen]
  · intro h
    rw [h]
    exact ⟨rfl, rfl⟩
  · intro h
    rw [h]
    rfl

/-- C9 witness: a directory with one readable entry loads successfully, the
process runs with that map and the readiness probe answers 200. -/
theorem C9_witness :
    readConfigMap (Except.ok [⟨"KEY", false, Except.ok "value"⟩]) =
      Except.ok [("KEY", "value")] ∧
    startupConfig (readConfigMap (Except.ok [⟨"KEY", false, Except.ok "value"⟩])) =
      Startup.running [("KEY", "value")] ∧
    handleReady [("KEY", "value")] = 200 :=
  ⟨rfl,
    ((C9_readiness (Except.ok [⟨"KEY", false, Except.ok "value"⟩])).1
      [("KEY", "value")] rfl).1,
    ((C9_readiness (Except.ok [⟨"KEY", false, Except.ok "value"⟩])).1
      [("KEY", "value")] rfl).2⟩

/-! ## Pointer parsing lemmas -/

theorem splitSegs_noSlash (l : List Char) (h : '/' ∉ l) : splitSegs l = [l] := by
  induction l with
  | nil => rfl
  | cons c t ih =>
    have hc : ¬ c = '/' := fun hh => h (hh ▸ List.mem_cons_self c t)
    have ht : '/' ∉ t := fun hm => h (List.mem_cons_of_mem c hm)
    simp [splitSegs, hc, ih ht]

theorem splitSegs_append (s t : List Char) (h : '/' ∉ s) :
    splitSegs (s ++ '/' :: t) = s :: splitSegs t := by
  induction s with
  | nil => simp [splitSegs]
  | cons c s2 ih =>
    have hc : ¬ c = '/' := fun hh => h (hh ▸ List.mem_cons_self c s2)
    have hs2 : '/' ∉ s2 := fun hm => h (List.mem_cons_of_mem c hm)
    simp [splitSegs, hc, ih hs2]

theorem parsePointer_mk_slash (rest : List Char) :
    parsePointer (String.mk ('/' :: rest)) =
      some ((splitSegs rest).map (fun s => String.mk (unescapeSeg s))) := rfl

theorem parsePointer_subPath (k : String) :
    parsePointer (subPath k) =
      some ["spec", "postBuild", "substitute",
        String.mk (unescapeSeg (escapeJsonPointer k).data)] := by
  cases hesc : escapeJsonPointer k with
  | mk e =>
    have hslash : '/' ∉ e := by
      have := escape_no_slash k
      rw [hesc] at this
      exact this
    rw [show subPath k = String.mk ('/' :: ("spec".data ++ '/' ::
        ("postBuild".data ++ '/' :: ("substitute".data ++ '/' :: e)))) from by
      rw [subPath, hesc]; exact rfl]
    rw [parsePointer_mk_slash]
    rw [splitSegs_append _ _ (by decide)]
    rw [splitSegs_append _ _ (by decide)]
    rw [splitSegs_append _ _ (by decide)]
    rw [splitSegs_noSlash e hslash]
    rfl

/-! ## Patch application machinery -/

theorem subReady_nestedMap {o : Jobj} (h : SubReady o) :
    nestedMap o ["spec", "postBuild"] ≠ none ∧
    nestedMap o ["spec", "postBuild", "substitute"] ≠ none := by
  rcases h with ⟨A, B, S, hs, hp, hb⟩
  constructor <;> simp [nestedMap, hs, hp, hb]

theorem pb_of_nestedMap {o B : Jobj}
    (h : nestedMap o ["spec", "postBuild"] = some B) :
    ∃ A, getMember o "spec" = some (Json.obj A) ∧
      getMember A "postBuild" = some (Json.obj B) := by
  cases hs : getMember o "spec" with
  | none => simp [nestedMap, hs] at h
  | some j =>
    cases j with
    | obj A =>
      cases hp : getMember A "postBuild" with
      | none => simp [nestedMap, hs, hp] at h
      | some j2 =>
        cases j2 with
        | obj B2 =>
          have hB : B2 = B := by simpa [nestedMap, hs, hp] using h
          subst hB
          exact ⟨A, rfl, hp⟩
        | null => simp [nestedMap, hs, hp] at h
        | bool b => simp [nestedMap, hs, hp] at h
        | num n => simp [nestedMap, hs, hp] at h
        | str s => simp [nestedMap, hs, hp] at h
        | arr a => simp [nestedMap, hs, hp] at h
    | null => simp [nestedMap, hs] at h
    | bool b => simp [nestedMap, hs] at h
    | num n => simp [nestedMap, hs] at h
    | str s => simp [nestedMap, hs] at h
    | arr a => simp [nestedMap, hs] at h

theorem subReady_of_nestedMap {o S : Jobj}
    (h : nestedMap o ["spec", "postBuild", "substitute"] = some S) :
    SubReady o := by
  cases hs : getMember o "spec" with
  | none => simp [nestedMap, hs] at h
  | some j =>
    cases j with
    | obj A =>
      cases hp : getMember A "postBuild" with
      | none => simp [nestedMap, hs, hp] at h
      | some j2 =>
        cases j2 with
        | obj B =>
          cases hb : getMember B "substitute" with
          | none => simp [nestedMap, hs, hp, hb] at h
          | some j3 =>
            cases j3 with
            | obj S2 => exact ⟨A, B, S2, hs, hp, hb⟩
            | null => simp [nestedMap, hs, hp, hb] at h
            | bool b => simp [nestedMap, hs, hp, hb] at h
            | num n => simp [nestedMap, hs, hp, hb] at h
            | str s => simp [nestedMap, hs, hp, hb] at h
            | arr a => simp [nestedMap, hs, hp, hb] at h
        | null => simp [nestedMap, hs, hp] at h
        | bool b => simp [nestedMap, hs, hp] at h
        | num n => simp [nestedMap, hs, hp] at h
        | str s => simp [nestedMap, hs, hp] at h
        | arr a => simp [nestedMap, hs, hp] at h
    | null => simp [nestedMap, hs] at h
    | bool b => simp [nestedMap, hs] at h
    | num n => simp [nestedMap, hs] at h
    | str s => simp [nestedMap, hs] at h
    | arr a => simp [nestedMap, hs] at h

theorem addAt_keyPath (o A B S : Jobj) (seg : String) (v : Json)
    (hs : getMember o "spec" = some (Json.obj A))
    (hp : getMember A "postBuild" = some (Json.obj B))
    (hb : getMember B "substitute" = some (Json.obj S)) :
    addAt o ["spec", "postBuild", "substitute", seg] v =
      some (setMember o "spec" (Json.obj (setMember A "postBuild" (Json.obj
        (setMember B "substitute" (Json.obj (setMember S seg v))))))) := by
  simp [addAt, hs, hp, hb]

theorem addAt_pbPath (o A : Jobj)
    (hs : getMember o "spec" = some (Json.obj A)) :
    addAt o ["spec", "postBuild"] (Json.obj []) =
      some (setMember o "spec"
        (Json.obj (setMember A "postBuild" (Json.obj [])))) := by
  simp [addAt, hs]

theorem addAt_subSegs (o A B : Jobj)
    (hs : getMember o "spec" = some (Json.obj A))
    (hp : getMember A "postBuild" = some (Json.obj B)) :
    addAt o ["spec", "postBuild", "substitute"] (Json.obj []) =
      some (setMember o "spec" (Json.obj (setMember A "postBuild"
        (Json.obj (setMember B "substitute" (Json.obj [])))))) := by
  simp [addAt, hs, hp]

theorem applyOp_pbAddOp (o : Jobj) :
    applyOp o pbAddOp = addAt o ["spec", "postBuild"] (Json.obj []) := rfl

theorem applyOp_subAddOp (o : Jobj) :
    applyOp o subAddOp =
      addAt o ["spec", "postBuild", "substitute"] (Json.obj []) := rfl

theorem applyOp_keyOp (o : Jobj) (k : String) (v : Json) :
    applyOp o ⟨"add", subPath k, v⟩ =
      addAt o ["spec", "postBuild", "substitute",
        String.mk (unescapeSeg (escapeJsonPointer k).data)] v := by
  unfold applyOp
  rw [if_pos rfl, parsePointer_subPath]

theorem setMember_spec_subReady (o A B X : Jobj) :
    SubReady (setMember o "spec" (Json.obj (setMember A "postBuild" (Json.obj
      (setMember B "substitute" (Json.obj X)))))) :=
  ⟨setMember A "postBuild" (Json.obj (setMember B "substitute" (Json.obj X))),
   setMember B "substitute" (Json.obj X), X,
   getMember_setMember_same _ _ _,
   getMember_setMember_same _ _ _,
   getMember_setMember_same _ _ _⟩

theorem setMember_spec_metadata (o : Jobj) (v : Json) :
    getMember (setMember o "spec" v) "metadata" = getMember o "metadata" :=
  getMember_setMember_other o "spec" "metadata" v (by decide)

theorem addAt_key_preserves (o : Jobj) (h : SubReady o) (seg : String)
    (v : Json) :
    ∃ o2, addAt o ["spec", "postBuild", "substitute", seg] v = some o2 ∧
      SubReady o2 ∧ getMember o2 "metadata" = getMember o "metadata" := by
  rcases h with ⟨A, B, S, hs, hp, hb⟩
  exact ⟨_, addAt_keyPath o A B S seg v hs hp hb,
    setMember_spec_subReady o A B _,
    setMember_spec_metadata o _⟩

theorem applyPatch_substOps (cfg : List (String × String)) :
    ∀ o : Jobj, SubReady o →
      ∃ o2, applyPatch o (substOps cfg) = some o2 ∧ SubReady o2 ∧
        getMember o2 "metadata" = getMember o "metadata" := by
  induction cfg with
  | nil => exact fun o h => ⟨o, rfl, h, rfl⟩
  | cons kv t ih =>
    intro o h
    obtain ⟨o1, h1, hr1, hm1⟩ :=
      addAt_key_preserves o h
        (String.mk (unescapeSeg (escapeJsonPointer kv.1).data)) (Json.str kv.2)
    obtain ⟨o2, h2, hr2, hm2⟩ := ih o1 hr1
    refine ⟨o2, ?_, hr2, hm2.trans hm1⟩
    show applyPatch o (substOps (kv :: t)) = some o2
    have hcons : substOps (kv :: t) =
        (⟨"add", subPath kv.1, Json.str kv.2⟩ : PatchOp) :: substOps t := rfl
    rw [hcons]
    unfold applyPatch
    rw [List.foldlM_cons]
    rw [show applyOp o ⟨"add", subPath kv.1, Json.str kv.2⟩ = some o1 from by
      rw [applyOp_keyOp]; exact h1]
    exact h2

theorem applyPatch_containerOps_of_spec (o A : Jobj)
    (hs : getMember o "spec" = some (Json.obj A)) :
    ∃ o2, applyPatch o (containerOps o) = some o2 ∧ SubReady o2 ∧
      getMember o2 "metadata" = getMember o "metadata" := by
  cases hpb : nestedMap o ["spec", "postBuild"] with
  | some B =>
    cases hsub : nestedMap o ["spec", "postBuild", "substitute"] with
    | some S =>
      refine ⟨o, ?_, subReady_of_nestedMap hsub, rfl⟩
      simp [containerOps, hpb, hsub, applyPatch]
    | none =>
      obtain ⟨A2, hs2, hp2⟩ := pb_of_nestedMap hpb
      have hA : A2 = A := by
        have := hs2.symm.trans hs
        injection this with h2
        injection h2
      rw [hA] at hp2
      refine ⟨_, ?_, setMember_spec_subReady o A B [],
        setMember_spec_metadata o _⟩
      have hops : containerOps o = [subAddOp] := by
        simp [containerOps, hpb, hsub]
      rw [hops]
      unfold applyPatch
      rw [List.foldlM_cons, applyOp_subAddOp, addAt_subSegs o A B hs hp2]
      rfl
  | none =>
    cases hsub : nestedMap o ["spec", "postBuild", "substitute"] with
    | some S =>
      exact absurd hpb (subReady_nestedMap (subReady_of_nestedMap hsub)).1
    | none =>
      have hops : containerOps o = [pbAddOp, subAddOp] := by
        simp [containerOps, hpb, hsub]
      refine ⟨_, ?_,
        setMember_spec_subReady
          (setMember o "spec" (Json.obj (setMember A "postBuild" (Json.obj []))))
          (setMember A "postBuild" (Json.obj [])) [] [], ?_⟩
      · rw [hops]
        unfold applyPatch
        rw [List.foldlM_cons, applyOp_pbAddOp, addAt_pbPath o A hs]
        show applyPatch _ [subAddOp] = _
        unfold applyPatch
        rw [List.foldlM_cons, applyOp_subAddOp,
          addAt_subSegs _ (setMember A "postBuild" (Json.obj [])) []
            (getMember_setMember_same _ _ _) (getMember_setMember_same _ _ _)]
        rfl
      · rw [setMember_spec_metadata, setMember_spec_metadata]

theorem applyPatch_mkPatch_spec {o o3 : Jobj} {cfg : List (String × String)}
    (h : applyPatch o (mkPatch o cfg) = some o3) :
    ∃ A, getMember o "spec" = some (Json.obj A) := by
  cases hpb : nestedMap o ["spec", "postBuild"] with
  | some B =>
    obtain ⟨A, hs, _⟩ := pb_of_nestedMap hpb
    exact ⟨A, hs⟩
  | none =>
    have hcons : mkPatch o cfg = pbAddOp ::
        ((match nestedMap o ["spec", "postBuild", "substitute"] with
          | none => [subAddOp]
          | some _ => []) ++ substOps cfg) := by
      simp [mkPatch, containerOps, hpb]
    rw [hcons] at h
    unfold applyPatch at h
    rw [List.foldlM_cons] at h
    cases hgs : getMember o "spec" with
    | none =>
      rw [show applyOp o pbAddOp = none from by
        rw [applyOp_pbAddOp]; simp [addAt, hgs]] at h
      exact absurd h (by simp)
    | some j =>
      cases j with
      | obj A => exact ⟨A, rfl⟩
      | null =>
        rw [show applyOp o pbAddOp = none from by
          rw [applyOp_pbAddOp]; simp [addAt, hgs]] at h
        exact absurd h (by simp)
      | bool b =>
        rw [show applyOp o pbAddOp = none from by
          rw [applyOp_pbAddOp]; simp [addAt, hgs]] at h
        exact absurd h (by simp)
      | num n =>
        rw [show applyOp o pbAddOp = none from by
          rw [applyOp_pbAddOp]; simp [addAt, hgs]] at h
        exact absurd h (by simp)
      | str s =>
        rw [show applyOp o pbAddOp = none from by
          rw [applyOp_pbAddOp]; simp [addAt, hgs]] at h
        exact absurd h (by simp)
      | arr a =>
        rw [show applyOp o pbAddOp = none from by
          rw [applyOp_pbAddOp]; simp [addAt, hgs]] at h
        exact absurd h (by simp)

theorem applyPatch_mkPatch (o : Jobj) (cfg : List (String × String))
    (hA : ∃ A, getMember o "spec" = some (Json.obj A)) :
    ∃ o3, applyPatch o (mkPatch o cfg) = some o3 ∧ SubReady o3 ∧
      getMember o3 "metadata" = getMember o "metadata" := by
  rcases hA with ⟨A, hs⟩
  obtain ⟨o2, h2, hr2, hm2⟩ := applyPatch_containerOps_of_spec o A hs
  obtain ⟨o3, h3, hr3, hm3⟩ := applyPatch_substOps cfg o2 hr2
  refine ⟨o3, ?_, hr3, hm3.trans hm2⟩
  unfold mkPatch applyPatch
  rw [List.foldlM_append]
  unfold applyPatch at h2 h3
  rw [h2]
  exact h3

theorem dtZero_congr {o1 o2 : Jobj}
    (h : getMember o1 "metadata" = getMember o2 "metadata") :
    deletionTimestampIsZero o1 = deletionTimestampIsZero o2 := by
  unfold deletionTimestampIsZero
  rw [h]

theorem containerOps_eq_nil_of_subReady {o : Jobj} (h : SubReady o) :
    containerOps o = [] := by
  obtain ⟨hpb, hsub⟩ := subReady_nestedMap h
  cases hpbe : nestedMap o ["spec", "postBuild"] with
  | none => exact absurd hpbe hpb
  | some B =>
    cases hsube : nestedMap o ["spec", "postBuild", "substitute"] with
    | none => exact absurd hsube hsub
    | some S => simp [containerOps, hpbe, hsube]

theorem isContainerOp_keyOp (k : String) (v : Json) :
    isContainerOp ⟨"add", subPath k, v⟩ = false := by
  have h1 := subPath_ne_pb k
  have h2 := subPath_ne_sub k
  simp [isContainerOp, h1, h2]

theorem takeWhile_substOps (cfg : List (String × String)) :
    (substOps cfg).takeWhile isContainerOp = [] := by
  cases cfg with
  | nil => rfl
  | cons kv t =>
    have hcons : substOps (kv :: t) =
        (⟨"add", subPath kv.1, Json.str kv.2⟩ : PatchOp) :: substOps t := rfl
    rw [hcons, List.takeWhile_cons, isContainerOp_keyOp]
    rfl

theorem dropWhile_substOps (cfg : List (String × String)) :
    (substOps cfg).dropWhile isContainerOp = substOps cfg := by
  cases cfg with
  | nil => rfl
  | cons kv t =>
    have hcons : substOps (kv :: t) =
        (⟨"add", subPath kv.1, Json.str kv.2⟩ : PatchOp) :: substOps t := rfl
    rw [hcons, List.dropWhile_cons, isContainerOp_keyOp]
    rfl

/-! ## Claims C1 and C10 -/

/-- C1 (amended): for a target-kind, non-delete request, if the produced
patch applies to the object, then re-running the decision on the patched
object yields exactly the per-key substitution operations — the two
container `add`s never fire again — and that second patch is empty exactly
when the substitution map is empty (not always, as the claim states). -/
theorem C1_rerun_only_key_adds (uid op : String) (doc doc2 : Jobj)
    (cfg : List (String × String))
    (hop : op ≠ "DELETE") (hdt : deletionTimestampIsZero doc = true)
    (happly : applyPatch doc (responsePatch (handleMutate
        (Except.ok (some ⟨uid, "Kustomization", op, some doc⟩)) cfg)) =
      some doc2) :
    responsePatch (handleMutate
        (Except.ok (some ⟨uid, "Kustomization", op, some doc2⟩)) cfg) =
      substOps cfg ∧
    (substOps cfg = [] ↔ cfg = []) := by
  rw [responsePatch_run uid op doc cfg hop hdt] at happly
  obtain ⟨A, hs⟩ := applyPatch_mkPatch_spec happly
  obtain ⟨o3, h3, hr3, hm3⟩ := applyPatch_mkPatch doc cfg ⟨A, hs⟩
  have hd2 : doc2 = o3 := Option.some.inj (happly.symm.trans h3)
  subst hd2
  have hdt2 : deletionTimestampIsZero doc2 = true := by
    rw [dtZero_congr hm3]
    exact hdt
  rw [responsePatch_run uid op doc2 cfg hop hdt2]
  constructor
  · rw [mkPatch, containerOps_eq_nil_of_subReady hr3]
    rfl
  · simp [substOps]

/-- C1 counterexample: on an object that already carries
`spec.postBuild.substitute` and a one-entry substitution map, the produced
patch applies cleanly, yet re-running the decision on the patched object
yields the same single key `add` again — a non-empty patch, refuting the
claimed empty second patch. -/
theorem C1_counterexample :
    responsePatch (handleMutate (Except.ok (some ⟨"ua", "Kustomization",
        "CREATE", some [("spec", Json.obj [("postBuild",
          Json.obj [("substitute", Json.obj [])])])]⟩)) [("A", "B")]) =
      [⟨"add", subPath "A", Json.str "B"⟩] ∧
    applyPatch [("spec", Json.obj [("postBuild",
        Json.obj [("substitute", Json.obj [])])])]
        [⟨"add", subPath "A", Json.str "B"⟩] =
      some [("spec", Json.obj [("postBuild",
        Json.obj [("substitute", Json.obj [("A", Json.str "B")])])])] ∧
    responsePatch (handleMutate (Except.ok (some ⟨"ua", "Kustomization",
        "CREATE", some [("spec", Json.obj [("postBuild",
          Json.obj [("substitute", Json.obj [("A", Json.str "B")])])])]⟩))
        [("A", "B")]) =
      [⟨"add", subPath "A", Json.str "B"⟩] ∧
    ([⟨"add", subPath "A", Json.str "B"⟩] : List PatchOp) ≠ [] :=
  ⟨rfl, rfl, rfl, List.cons_ne_nil _ _⟩

/-- C1 witness: a concrete run of the amended idempotence statement on an
object with an empty `spec` and a one-entry map. -/
theorem C1_witness :
    ("CREATE" : String) ≠ "DELETE" ∧
    deletionTimestampIsZero [("spec", Json.obj [])] = true ∧
    applyPatch [("spec", Json.obj [])]
        (responsePatch (handleMutate (Except.ok (some ⟨"u6", "Kustomization",
          "CREATE", some [("spec", Json.obj [])]⟩)) [("K", "V")])) =
      some [("spec", Json.obj [("postBuild", Json.obj [("substitute",
        Json.obj [("K", Json.str "V")])])])] ∧
    (responsePatch (handleMutate (Except.ok (some ⟨"u6", "Kustomization",
        "CREATE", some [("spec", Json.obj [("postBuild", Json.obj [("substitute",
          Json.obj [("K", Json.str "V")])])])]⟩)) [("K", "V")]) =
      substOps [("K", "V")] ∧
     (substOps [("K", "V")] = [] ↔ [("K", "V")] = ([] : List (String × String)))) :=
  ⟨by decide, rfl, rfl,
    C1_rerun_only_key_adds "u6" "CREATE" [("spec", Json.obj [])]
      [("spec", Json.obj [("postBuild", Json.obj [("substitute",
        Json.obj [("K", Json.str "V")])])])] [("K", "V")]
      (by decide) rfl rfl⟩

/-- C10 (amended): in every patch the handler emits, the conditional
container `add`s form the initial segment, in order, followed by all the
per-key `add`s; sequential application succeeds (every parent path is
established by the original document or an earlier operation) provided the
original document has an object at `spec` — when `spec` is absent or not
an object, the first container `add` has no established parent and
application fails. -/
theorem C10_op_order_and_parents (uid op : String) (doc : Jobj)
    (cfg : List (String × String))
    (hop : op ≠ "DELETE") (hdt : deletionTimestampIsZero doc = true) :
    responsePatch (handleMutate
        (Except.ok (some ⟨uid, "Kustomization", op, some doc⟩)) cfg) =
      containerOps doc ++ substOps cfg ∧
    (mkPatch doc cfg).takeWhile isContainerOp = containerOps doc ∧
    (mkPatch doc cfg).dropWhile isContainerOp = substOps cfg ∧
    ((∃ A, getMember doc "spec" = some (Json.obj A)) →
      (applyPatch doc (mkPatch doc cfg)).isSome = true) := by
  refine ⟨by rw [responsePatch_run uid op doc cfg hop hdt]; rfl, ?_, ?_, ?_⟩
  · cases hpb : nestedMap doc ["spec", "postBuild"] <;>
      cases hsub : nestedMap doc ["spec", "postBuild", "substitute"] <;>
        simp [mkPatch, containerOps, hpb, hsub, List.takeWhile_cons,
          isContainerOp, pbAddOp, subAddOp, takeWhile_substOps]
  · cases hpb : nestedMap doc ["spec", "postBuild"] <;>
      cases hsub : nestedMap doc ["spec", "postBuild", "substitute"] <;>
        simp [mkPatch, containerOps, hpb, hsub, List.dropWhile_cons,
          isContainerOp, pbAddOp, subAddOp, dropWhile_substOps]
  · intro hA
    obtain ⟨o3, h3, _, _⟩ := applyPatch_mkPatch doc cfg hA
    rw [h3]
    rfl

/-- C10 counterexample: on a document with no `spec` member the emitted
patch is non-empty and its first operation's parent path `/spec` is
established neither by the document nor by an earlier operation —
sequential application fails. -/
theorem C10_counterexample :
    mkPatch [] [] = [pbAddOp, subAddOp] ∧
    applyPatch [] (mkPatch [] []) = none :=
  ⟨rfl, rfl⟩

/-- C10 witness: a concrete run of the ordering-and-parents statement on a
document with an empty `spec` object. -/
theorem C10_witness :
    ("CREATE" : String) ≠ "DELETE" ∧
    deletionTimestampIsZero [("spec", Json.obj [])] = true ∧
    (responsePatch (handleMutate (Except.ok (some ⟨"u9", "Kustomization",
        "CREATE", some [("spec", Json.obj [])]⟩)) [("K", "V")]) =
      containerOps [("spec", Json.obj [])] ++ substOps [("K", "V")] ∧
    (mkPatch [("spec", Json.obj [])] [("K", "V")]).takeWhile isContainerOp =
      containerOps [("spec", Json.obj [])] ∧
    (mkPatch [("spec", Json.obj [])] [("K", "V")]).dropWhile isContainerOp =
      substOps [("K", "V")] ∧
    ((∃ A, getMember [("spec", Json.obj [])] "spec" = some (Json.obj A)) →
      (applyPatch [("spec", Json.obj [])]
        (mkPatch [("spec", Json.obj [])] [("K", "V")])).isSome = true)) :=
  ⟨by decide, rfl,
    C10_op_order_and_parents "u9" "CREATE" [("spec", Json.obj [])]
      [("K", "V")] (by decide) rfl⟩

/-! ## Claims C2 and C3 -/

theorem pbAddOp_ne_subAddOp : pbAddOp ≠ subAddOp :=
  fun h => absurd (congrArg PatchOp.path h) (by decide)

theorem pbAddOp_not_mem_substOps (cfg : List (String × String)) :
    pbAddOp ∉ substOps cfg := by
  intro hmem
  rcases List.mem_map.mp hmem with ⟨kv, _, heq⟩
  exact subPath_ne_pb kv.1 (congrArg PatchOp.path heq)

theorem subAddOp_not_mem_substOps (cfg : List (String × String)) :
    subAddOp ∉ substOps cfg := by
  intro hmem
  rcases List.mem_map.mp hmem with ⟨kv, _, heq⟩
  exact subPath_ne_sub kv.1 (congrArg PatchOp.path heq)

theorem head_substOps_ne_pb (cfg : List (String × String)) :
    (substOps cfg).head? ≠ some pbAddOp := by
  cases cfg with
  | nil => simp [substOps]
  | cons kv t =>
    intro h
    have hcons : (substOps (kv :: t)).head? =
        some (⟨"add", subPath kv.1, Json.str kv.2⟩ : PatchOp) := rfl
    rw [hcons] at h
    exact subPath_ne_pb kv.1 (congrArg PatchOp.path (Option.some.inj h))

/-- C3: for a target-kind, non-delete request, the `add` of `{}` at
`/spec/postBuild` appears — and appears first — exactly when the original
document has no nested map at `spec.postBuild`, and the `add` of `{}` at
`/spec/postBuild/substitute` appears exactly when the original document has
no nested map at `spec.postBuild.substitute`; both checks read only the
original document. -/
theorem C3_container_adds (uid op : String) (doc : Jobj)
    (cfg : List (String × String))
    (hop : op ≠ "DELETE") (hdt : deletionTimestampIsZero doc = true) :
    ((responsePatch (handleMutate
        (Except.ok (some ⟨uid, "Kustomization", op, some doc⟩)) cfg)).head? =
        some pbAddOp ↔ nestedMap doc ["spec", "postBuild"] = none) ∧
    (pbAddOp ∈ responsePatch (handleMutate
        (Except.ok (some ⟨uid, "Kustomization", op, some doc⟩)) cfg) ↔
      nestedMap doc ["spec", "postBuild"] = none) ∧
    (subAddOp ∈ responsePatch (handleMutate
        (Except.ok (some ⟨uid, "Kustomization", op, some doc⟩)) cfg) ↔
      nestedMap doc ["spec", "postBuild", "substitute"] = none) := by
  rw [responsePatch_run uid op doc cfg hop hdt]
  refine ⟨?_, ?_, ?_⟩
  · cases hpb : nestedMap doc ["spec", "postBuild"] with
    | none =>
      refine ⟨fun _ => rfl, fun _ => ?_⟩
      have hm : ∃ L, mkPatch doc cfg = pbAddOp :: L := by
        cases hsub : nestedMap doc ["spec", "postBuild", "substitute"] with
        | none =>
          exact ⟨subAddOp :: substOps cfg,
            by simp [mkPatch, containerOps, hpb, hsub]⟩
        | some S =>
          exact ⟨substOps cfg, by simp [mkPatch, containerOps, hpb, hsub]⟩
      rcases hm with ⟨L, hL⟩
      rw [hL]
      rfl
    | some B =>
      refine ⟨fun hhead => ?_, fun hcontra => ?_⟩
      · exfalso
        cases hsub : nestedMap doc ["spec", "postBuild", "substitute"] with
        | none =>
          have hm : mkPatch doc cfg = subAddOp :: substOps cfg := by
            simp [mkPatch, containerOps, hpb, hsub]
          rw [hm] at hhead
          exact pbAddOp_ne_subAddOp (Option.some.inj hhead).symm
        | some S =>
          have hm : mkPatch doc cfg = substOps cfg := by
            simp [mkPatch, containerOps, hpb, hsub]
          rw [hm] at hhead
          exact head_substOps_ne_pb cfg hhead
      · exact Option.noConfusion hcontra
  · cases hpb : nestedMap doc ["spec", "postBuild"] with
    | none =>
      refine ⟨fun _ => rfl, fun _ => ?_⟩
      have hm : ∃ L, mkPatch doc cfg = pbAddOp :: L := by
        cases hsub : nestedMap doc ["spec", "postBuild", "substitute"] with
        | none =>
          exact ⟨subAddOp :: substOps cfg,
            by simp [mkPatch, containerOps, hpb, hsub]⟩
        | some S =>
          exact ⟨substOps cfg, by simp [mkPatch, containerOps, hpb, hsub]⟩
      rcases hm with ⟨L, hL⟩
      rw [hL]
      exact List.mem_cons_self _ _
    | some B =>
      refine ⟨fun hmem => ?_, fun hcontra => ?_⟩
      · exfalso
        cases hsub : nestedMap doc ["spec", "postBuild", "substitute"] with
        | none =>
          have hm : mkPatch doc cfg = subAddOp :: substOps cfg := by
            simp [mkPatch, containerOps, hpb, hsub]
          rw [hm] at hmem
          rcases List.mem_cons.mp hmem with heq | hmem2
          · exact pbAddOp_ne_subAddOp heq
          · exact pbAddOp_not_mem_substOps cfg hmem2
        | some S =>
          have hm : mkPatch doc cfg = substOps cfg := by
            simp [mkPatch, containerOps, hpb, hsub]
          rw [hm] at hmem
          exact pbAddOp_not_mem_substOps cfg hmem
      · exact Option.noConfusion hcontra
  · cases hsub : nestedMap doc ["spec", "postBuild", "substitute"] with
    | none =>
      refine ⟨fun _ => rfl, fun _ => ?_⟩
      cases hpb : nestedMap doc ["spec", "postBuild"] with
      | none =>
        have hm : mkPatch doc cfg = pbAddOp :: subAddOp :: substOps cfg := by
          simp [mkPatch, containerOps, hpb, hsub]
        rw [hm]
        exact List.mem_cons_of_mem _ (List.mem_cons_self _ _)
      | some B =>
        have hm : mkPatch doc cfg = subAddOp :: substOps cfg := by
          simp [mkPatch, containerOps, hpb, hsub]
        rw [hm]
        exact List.mem_cons_self _ _
    | some S =>
      refine ⟨fun hmem => ?_, fun hcontra => ?_⟩
      · exfalso
        cases hpb : nestedMap doc ["spec", "postBuild"] with
        | none =>
          have hm : mkPatch doc cfg = pbAddOp :: substOps cfg := by
            simp [mkPatch, containerOps, hpb, hsub]
          rw [hm] at hmem
          rcases List.mem_cons.mp hmem with heq | hmem2
          · exact pbAddOp_ne_subAddOp heq.symm
          · exact subAddOp_not_mem_substOps cfg hmem2
        | some B =>
          have hm : mkPatch doc cfg = substOps cfg := by
            simp [mkPatch, containerOps, hpb, hsub]
          rw [hm] at hmem
          exact subAddOp_not_mem_substOps cfg hmem
      · exact Option.noConfusion hcontra

/-- C3 witness: an object with `spec.postBuild` present but no
`substitute` map gets the `substitute` container `add` but not the
`postBuild` one. -/
theorem C3_witness :
    ("UPDATE" : String) ≠ "DELETE" ∧
    deletionTimestampIsZero [("spec", Json.obj [("postBuild", Json.obj [])])] =
      true ∧
    (((responsePatch (handleMutate (Except.ok (some ⟨"u8", "Kustomization",
        "UPDATE", some [("spec", Json.obj [("postBuild", Json.obj [])])]⟩))
        [])).head? = some pbAddOp ↔
      nestedMap [("spec", Json.obj [("postBuild", Json.obj [])])]
        ["spec", "postBuild"] = none) ∧
    (pbAddOp ∈ responsePatch (handleMutate (Except.ok (some ⟨"u8",
        "Kustomization", "UPDATE",
        some [("spec", Json.obj [("postBuild", Json.obj [])])]⟩)) []) ↔
      nestedMap [("spec", Json.obj [("postBuild", Json.obj [])])]
        ["spec", "postBuild"] = none) ∧
    (subAddOp ∈ responsePatch (handleMutate (Except.ok (some ⟨"u8",
        "Kustomization", "UPDATE",
        some [("spec", Json.obj [("postBuild", Json.obj [])])]⟩)) []) ↔
      nestedMap [("spec", Json.obj [("postBuild", Json.obj [])])]
        ["spec", "postBuild", "substitute"] = none)) :=
  ⟨by decide, rfl,
    C3_container_adds "u8" "UPDATE"
      [("spec", Json.obj [("postBuild", Json.obj [])])] [] (by decide) rfl⟩

theorem filter_substOps_none (t : List (String × String)) (k : String)
    (hk : ∀ kv ∈ t, kv.1 ≠ k) :
    (substOps t).filter (fun o => o.path == subPath k) = [] := by
  induction t with
  | nil => rfl
  | cons kv t2 ih =>
    have hcons : substOps (kv :: t2) =
        (⟨"add", subPath kv.1, Json.str kv.2⟩ : PatchOp) :: substOps t2 := rfl
    rw [hcons, List.filter_cons]
    have hne : subPath kv.1 ≠ subPath k :=
      fun h => hk kv (List.mem_cons_self kv t2) (subPath_inj h)
    rw [if_neg (by simp [hne])]
    exact ih (fun kv2 hkv2 => hk kv2 (List.mem_cons_of_mem kv hkv2))

theorem filter_substOps_eq (cfg : List (String × String)) (k v : String)
    (hnd : (cfg.map Prod.fst).Nodup) (hmem : (k, v) ∈ cfg) :
    (substOps cfg).filter (fun o => o.path == subPath k) =
      [⟨"add", subPath k, Json.str v⟩] := by
  induction cfg with
  | nil => cases hmem
  | cons kv t ih =>
    obtain ⟨k1, v1⟩ := kv
    have hcons : substOps ((k1, v1) :: t) =
        (⟨"add", subPath k1, Json.str v1⟩ : PatchOp) :: substOps t := rfl
    rw [hcons, List.filter_cons]
    have hnd1 : (k1 :: t.map Prod.fst).Nodup := by
      simpa only [List.map_cons] using hnd
    have hk1 : k1 ∉ t.map Prod.fst := (List.nodup_cons.mp hnd1).1
    have hnd2 : (t.map Prod.fst).Nodup := (List.nodup_cons.mp hnd1).2
    by_cases hk : k1 = k
    · rw [if_pos (by simp [hk])]
      have hv : v1 = v := by
        rcases List.mem_cons.mp hmem with heq | hmem2
        · have h2 := Prod.mk.injEq k v k1 v1 ▸ heq
          exact ((Prod.mk.injEq k v k1 v1).mp heq).2.symm
        · exfalso
          apply hk1
          rw [hk]
          exact List.mem_map.mpr ⟨(k, v), hmem2, rfl⟩
      rw [hv, hk]
      rw [filter_substOps_none t k ?_]
      · intro kv2 hkv2 heq
        apply hk1
        rw [hk]
        exact List.mem_map.mpr ⟨kv2, hkv2, heq⟩
    · have hne2 : subPath k1 ≠ subPath k := fun h => hk (subPath_inj h)
      rw [if_neg (by simp [hne2])]
      apply ih hnd2
      rcases List.mem_cons.mp hmem with heq | hmem2
      · exact absurd ((Prod.mk.injEq k v k1 v1).mp heq).1.symm hk
      · exact hmem2

/-- C2: for every entry of the substitution map (with its pairwise-distinct
keys), the emitted patch of a target-kind, non-delete request contains
exactly one operation whose path is `/spec/postBuild/substitute/<escaped
key>`, namely an `add` of the literal string value; escaping replaces `~`
by `~0` and then `/` by `~1`, so the key `a/b` yields the segment `a~1b`. -/
theorem C2_unique_escaped_key_add (uid op : String) (doc : Jobj)
    (cfg : List (String × String)) (k v : String)
    (hop : op ≠ "DELETE") (hdt : deletionTimestampIsZero doc = true)
    (hnd : (cfg.map Prod.fst).Nodup) (hmem : (k, v) ∈ cfg) :
    (responsePatch (handleMutate
        (Except.ok (some ⟨uid, "Kustomization", op, some doc⟩)) cfg)).filter
        (fun o => o.path == subPath k) =
      [⟨"add", subPath k, Json.str v⟩] ∧
    escapeJsonPointer "a/b" = "a~1b" := by
  refine ⟨?_, rfl⟩
  rw [responsePatch_run uid op doc cfg hop hdt]
  rw [mkPatch, List.filter_append]
  have h1 : ("/spec/postBuild" : String) ≠ subPath k :=
    Ne.symm (subPath_ne_pb k)
  have h2 : ("/spec/postBuild/substitute" : String) ≠ subPath k :=
    Ne.symm (subPath_ne_sub k)
  have hcont : (containerOps doc).filter (fun o => o.path == subPath k) = [] := by
    cases hpb : nestedMap doc ["spec", "postBuild"] <;>
      cases hsub : nestedMap doc ["spec", "postBuild", "substitute"] <;>
        simp [containerOps, hpb, hsub, pbAddOp, subAddOp, h1, h2]
  rw [hcont, filter_substOps_eq cfg k v hnd hmem]
  rfl

/-- C2 witness: a concrete run with the key `a/b`, whose escaped path
segment is `a~1b`. -/
theorem C2_witness :
    ("CREATE" : String) ≠ "DELETE" ∧
    deletionTimestampIsZero [] = true ∧
    ([("a/b", "x")].map Prod.fst).Nodup ∧
    (("a/b", "x") ∈ [("a/b", "x")]) ∧
    ((responsePatch (handleMutate (Except.ok (some ⟨"u7", "Kustomization",
        "CREATE", some []⟩)) [("a/b", "x")])).filter
        (fun o => o.path == subPath "a/b") =
      [⟨"add", subPath "a/b", Json.str "x"⟩] ∧
    escapeJsonPointer "a/b" = "a~1b") :=
  ⟨by decide, rfl, by decide, by decide,
    C2_unique_escaped_key_add "u7" "CREATE" [] [("a/b", "x")] "a/b" "x"
      (by decide) rfl (by decide) (by decide)⟩
